import Mathlib

/-!
Verification development for the matrix-corporal hook model and the
HTTP-gateway login interceptor pipeline.

The Go sources embedded here are `corporal/hook/hook.go` and
`corporal/httpgateway/handler/login.go`.  Pure functions become Lean
functions; Go's `error` becomes `Option String` / `Except String`;
Go pointers to strings and compiled regexes become `Option`.
A `panic` is modelled as the `Except.error` branch, and `logger.Fatalf`
(which terminates the whole process) is modelled as a dedicated
`processCrash` outcome.
-/

set_option maxRecDepth 4096

/-! ### A small regular-expression engine

Models Go's `regexp.Compile` / `Regexp.MatchString` on the fragment of
syntax the hook configuration uses: literals, `.`, `^`, `$`, grouping,
alternation `|`, and the repetitions `*`, `+`, `?`, with backslash
escapes.  Unsupported constructs (such as character classes) are
rejected at compile time; compilation of malformed patterns (for
example an unclosed group) fails, exactly as Go's `regexp.Compile`
fails on them.
-/

inductive Regex where
  | eps : Regex
  | lit (c : Char) : Regex
  | dot : Regex
  | bol : Regex
  | eol : Regex
  | cat (a b : Regex) : Regex
  | alt (a b : Regex) : Regex
  | star (r : Regex) : Regex
deriving Repr, DecidableEq

mutual

/-- Parse an alternation `seq ('|' seq)*`. -/
def parseAlt : Nat → List Char → Except String (Regex × List Char)
  | 0, _ => .error "pattern too deeply nested"
  | fuel + 1, cs => do
    let (r, cs1) ← parseSeq fuel cs
    match cs1 with
    | '|' :: rest => do
      let (r2, cs2) ← parseAlt fuel rest
      pure (.alt r r2, cs2)
    | _ => pure (r, cs1)

/-- Parse a concatenation of repeated atoms. -/
def parseSeq : Nat → List Char → Except String (Regex × List Char)
  | 0, _ => .error "pattern too deeply nested"
  | fuel + 1, cs =>
    match cs with
    | [] => pure (.eps, [])
    | ')' :: _ => pure (.eps, cs)
    | '|' :: _ => pure (.eps, cs)
    | _ => do
      let (r, cs1) ← parseRep fuel cs
      let (r2, cs2) ← parseSeq fuel cs1
      pure (.cat r r2, cs2)

/-- Parse an atom followed by an optional repetition operator. -/
def parseRep : Nat → List Char → Except String (Regex × List Char)
  | 0, _ => .error "pattern too deeply nested"
  | fuel + 1, cs => do
    let (r, cs1) ← parseAtom fuel cs
    match cs1 with
    | '*' :: rest => pure (.star r, rest)
    | '+' :: rest => pure (.cat r (.star r), rest)
    | '?' :: rest => pure (.alt r .eps, rest)
    | _ => pure (r, cs1)

/-- Parse a single atom: a group, an escaped or plain literal, `.`, `^` or `$`. -/
def parseAtom : Nat → List Char → Except String (Regex × List Char)
  | 0, _ => .error "pattern too deeply nested"
  | fuel + 1, cs =>
    match cs with
    | [] => .error "unexpected end of pattern"
    | '(' :: rest => do
      let (r, cs1) ← parseAlt fuel rest
      match cs1 with
      | ')' :: cs2 => pure (r, cs2)
      | _ => .error "missing closing )"
    | ')' :: _ => .error "unexpected )"
    | '*' :: _ => .error "missing argument to repetition operator"
    | '+' :: _ => .error "missing argument to repetition operator"
    | '?' :: _ => .error "missing argument to repetition operator"
    | '[' :: _ => .error "character classes are not supported by this model"
    | '.' :: rest => pure (.dot, rest)
    | '^' :: rest => pure (.bol, rest)
    | '$' :: rest => pure (.eol, rest)
    | '\\' :: c :: rest => pure (.lit c, rest)
    | '\\' :: [] => .error "trailing backslash"
    | c :: rest => pure (.lit c, rest)

end

/-- Model of Go's `regexp.Compile`: parse the whole pattern or fail. -/
def regexpCompile (pat : String) : Except String Regex :=
  match parseAlt (pat.length * 4 + 16) pat.data with
  | .error e => .error e
  | .ok (r, []) => .ok r
  | .ok (_, _ :: _) => .error "unexpected )"

/-- The number of syntax nodes of a regex, used to size the matcher fuel. -/
def Regex.size : Regex → Nat
  | .eps => 1
  | .lit _ => 1
  | .dot => 1
  | .bol => 1
  | .eol => 1
  | .cat a b => a.size + b.size + 1
  | .alt a b => a.size + b.size + 1
  | .star r => r.size + 1

/-- All end positions `j` such that the regex matches `s` between positions
`i` and `j`.  The `^` and `$` assertions consult the absolute position in
`s`.  The fuel bounds the recursion depth; every `star` iteration must
consume at least one character, so the fuel `matchString` supplies —
proportional to the regex size times the string length — covers every
match on `s`. -/
def runMatch : Nat → Regex → List Char → Nat → List Nat
  | 0, _, _, _ => []
  | fuel + 1, r, s, i =>
    match r with
    | .eps => [i]
    | .lit c =>
      match s.drop i with
      | c2 :: _ => if c2 = c then [i + 1] else []
      | [] => []
    | .dot =>
      match s.drop i with
      | c2 :: _ => if c2 = '\n' then [] else [i + 1]
      | [] => []
    | .bol => if i = 0 then [i] else []
    | .eol => if i = s.length then [i] else []
    | .cat a b => (runMatch fuel a s i).flatMap (fun j => runMatch fuel b s j)
    | .alt a b => runMatch fuel a s i ++ runMatch fuel b s i
    | .star r1 =>
      i :: ((runMatch fuel r1 s i).filter (fun j => i < j)).flatMap
        (fun j => runMatch fuel (.star r1) s j)

/-- Model of Go's `Regexp.MatchString`: unanchored search — the regex may
match starting at any position of the string. -/
def Regex.matchString (r : Regex) (s : String) : Bool :=
  let cs := s.data
  let fuel := (r.size + 2) * (cs.length + 2) + r.size + 2
  (List.range (cs.length + 1)).any (fun i => !(runMatch fuel r cs i).isEmpty)

/-! ### The hook data model (`corporal/hook/hook.go`) -/

/-- Hook event type: executed before any request (`hook.go`). -/
def EventTypeBeforeAnyRequest : String := "beforeAnyRequest"

/-- Hook event type: executed before policy-checking for known URLs (`hook.go`). -/
def EventTypeBeforeAuthenticatedPolicyCheckedRequest : String :=
  "beforeAuthenticatedPolicyCheckedRequest"

/-- Modelled from the spec: the constant `hook.EventTypeBeforeUnauthenticatedRequest`
referenced by `login.go` is not defined anywhere under `src/`; the spec lists
`before-unauthenticated` among the pipeline phases, and the value follows the
naming convention of the two constants that are defined in `hook.go`. -/
def EventTypeBeforeUnauthenticatedRequest : String := "beforeUnauthenticatedRequest"

/-- Modelled from the spec: the constant `hook.EventTypeAfterAnyRequest`
referenced by `login.go` is not defined anywhere under `src/`; the spec lists
`after-any` among the pipeline phases. -/
def EventTypeAfterAnyRequest : String := "afterAnyRequest"

/-- Modelled from the spec: the constant `hook.EventTypeAfterUnauthenticatedRequest`
referenced by `login.go` is not defined anywhere under `src/`; the spec lists
`after-unauthenticated` among the pipeline phases. -/
def EventTypeAfterUnauthenticatedRequest : String := "afterUnauthenticatedRequest"

/-- The known event types, exactly as listed in `hook.go` lines 27-30. -/
def knownEventTypes : List String :=
  [EventTypeBeforeAnyRequest,
   EventTypeBeforeAuthenticatedPolicyCheckedRequest]

def ActionConsultRESTServiceURL : String := "consult.RESTServiceURL"

def ActionRespond : String := "respond"

def ActionReject : String := "reject"

def ActionPassUnmodified : String := "pass.unmodified"

def ActionPassInjectJSONIntoResponse : String := "pass.injectJSONIntoResponse"

/-- The known actions, exactly as listed in `hook.go` lines 58-64. -/
def knownActions : List String :=
  [ActionConsultRESTServiceURL,
   ActionRespond,
   ActionReject,
   ActionPassUnmodified,
   ActionPassInjectJSONIntoResponse]

/-- Modelled from the spec: `util.IsStringInArray` (the `util` package is not
under `src/`) is a plain membership test on a list of strings. -/
def IsStringInArray (s : String) (arr : List String) : Bool :=
  arr.contains s

/-- The `restActionHookDetails` embedded struct of `hook.go`. -/
structure RestActionHookDetails where
  RESTServiceURL : Option String := none
  RESTServiceRequestMethod : Option String := none
  RESTServiceRequestTimeoutMilliseconds : Option Int := none
  RESTServiceRequestHeaders : Option (List (String × String)) := none

/-- The `respondActionHookDetails` embedded struct of `hook.go`.  The
`interface{}`-typed `ResponsePayload` is modelled by its serialized form. -/
structure RespondActionHookDetails where
  ResponsePayload : Option String := none
  ResponseSkipPayloadJSONSerialization : Bool := false
  ResponseStatusCode : Option Int := none
  ResponseContentType : Option String := none

/-- The `rejectActionHookDetails` embedded struct of `hook.go`. -/
structure RejectActionHookDetails where
  RejectionErrorCode : Option String := none
  RejectionErrorMessage : Option String := none

/-- The `passInjectJSONIntoResponseActionHookDetails` embedded struct of `hook.go`. -/
structure PassInjectJSONIntoResponseActionHookDetails where
  InjectJSONIntoResponse : Option (List (String × String)) := none
  InjectHeadersIntoResponse : Option (List (String × String)) := none

/-- The `Hook` struct of `hook.go`.  Go's `*string` / `*regexp.Regexp`
fields become `Option`; the embedded action-detail structs are carried
verbatim (they are never read by `Validate` or `MatchesRequest`). -/
structure Hook where
  ID : String
  EventType : String
  RouteMatchesRegex : Option String := none
  RouteMatchesRegexCompiled : Option Regex := none
  MethodMatchesRegex : Option String := none
  MethodMatchesRegexCompiled : Option Regex := none
  Action : String
  rest : RestActionHookDetails := {}
  respond : RespondActionHookDetails := {}
  reject : RejectActionHookDetails := {}
  passInject : PassInjectJSONIntoResponseActionHookDetails := {}

/-- The second block of `(me *Hook) ensureInitialized() error` in `hook.go`:
compile `MethodMatchesRegex` (when present) into `MethodMatchesRegexCompiled`. -/
def Hook.ensureInitializedMethodStep (me : Hook) : Except String Hook :=
  match me.MethodMatchesRegex with
  | none => .ok me
  | some pat =>
    match regexpCompile pat with
    | .error err => .error err
    | .ok regex => .ok { me with MethodMatchesRegexCompiled := some regex }

/-- The method `(me *Hook) ensureInitialized() error` of `hook.go`.  The Go
method mutates `me` through the pointer receiver; the model returns the
updated hook (or the compile error of the first failing regex).  The route
regex is compiled first and a failure there short-circuits; the method
regex block follows as `ensureInitializedMethodStep`. -/
def Hook.ensureInitialized (me : Hook) : Except String Hook :=
  match me.RouteMatchesRegex with
  | none => me.ensureInitializedMethodStep
  | some pat =>
    match regexpCompile pat with
    | .error err => .error err
    | .ok regex =>
      Hook.ensureInitializedMethodStep { me with RouteMatchesRegexCompiled := some regex }

/-- The number of `regexp.Compile` invocations `ensureInitialized` performs,
mirroring its control flow: the route regex (when present) is compiled
first, and a failure there short-circuits before the method regex. -/
def Hook.ensureInitializedCompileCount (me : Hook) : Nat :=
  match me.RouteMatchesRegex with
  | none => (match me.MethodMatchesRegex with | none => 0 | some _ => 1)
  | some pat =>
    match regexpCompile pat with
    | .error _ => 1
    | .ok _ => 1 + (match me.MethodMatchesRegex with | none => 0 | some _ => 1)

/-- The method `(me Hook) Validate() error` of `hook.go`.  Note the VALUE
receiver: the hook `ensureInitialized` compiles the regexes into is a local
copy that is discarded when `Validate` returns; only the error is kept. -/
def Hook.Validate (me : Hook) : Option String :=
  if me.ID = "" then
    some "Hook has no id"
  else if !IsStringInArray me.EventType knownEventTypes then
    some (me.EventType ++ " is an invalid event type for hook #" ++ me.ID)
  else if !IsStringInArray me.Action knownActions then
    some (me.Action ++ " is an invalid action for hook #" ++ me.ID)
  else
    match me.ensureInitialized with
    | .error e => some ("Error when initializing hook #" ++ me.ID ++ ": " ++ e)
    | .ok _ => none

/-- A call `err := h.Validate()` as the caller sees it: since `Validate`
has a value receiver, the caller's hook is returned unchanged alongside
the error. -/
def Hook.ValidateCall (me : Hook) : Option String × Hook :=
  (me.Validate, me)

/-- The part of an `http.Request` that `MatchesRequest` reads. -/
structure Request where
  Method : String
  RequestURI : String

/-- The method `(me Hook) MatchesRequest(request *http.Request) bool` of
`hook.go`.  It first calls `ensureInitialized` on its local copy (value
receiver) — so the regexes are compiled afresh on every call — and panics
on a compile error (`panic` is the `Except.error` branch here).  The Go
early returns `return false` are the short-circuit of `&&`. -/
def Hook.MatchesRequest (me : Hook) (request : Request) : Except String Bool :=
  match me.ensureInitialized with
  | .error err => .error err
  | .ok me1 =>
    let methodOK : Bool :=
      match me1.MethodMatchesRegexCompiled with
      | some re => re.matchString request.Method
      | none => true
    let routeOK : Bool :=
      match me1.RouteMatchesRegexCompiled with
      | some re => re.matchString request.RequestURI
      | none => true
    .ok (methodOK && routeOK)

/-- A call `ok := h.MatchesRequest(r)` as the caller sees it: the value
receiver means the caller's hook is returned unchanged. -/
def Hook.MatchesRequestCall (me : Hook) (request : Request) :
    Except String Bool × Hook :=
  (me.MatchesRequest request, me)

/-- The number of `regexp.Compile` invocations one call of `MatchesRequest`
performs: it unconditionally calls `ensureInitialized` on its local copy
first, so every present regex string is compiled on every call. -/
def Hook.MatchesRequestCompileCount (me : Hook) (_ : Request) : Nat :=
  me.ensureInitializedCompileCount

/-! ### The login interceptor pipeline (`corporal/httpgateway/handler/login.go`) -/

/-- The value of `http.StatusForbidden`: the status `login.go` passes to
`httphelp.RespondWithMatrixError` on the deny path (line 80). -/
def StatusForbidden : Nat := 403

/-- The interceptor result tag.  The `interceptor` package is not under
`src/`; `login.go` compares `interceptorResult.Result` against the two
constants `InterceptorResultDeny` and `InterceptorResultProxy`, and any
other value falls through to the `Fatalf` line, so the model keeps a
catch-all constructor for such unexpected values. -/
inductive InterceptorResultType where
  | Deny : InterceptorResultType
  | Proxy : InterceptorResultType
  | Other (code : Nat) : InterceptorResultType
deriving Repr, DecidableEq

/-- Modelled from the spec: the `interceptor.InterceptorResult` struct is not
under `src/`.  `login.go` reads `Result`, `ErrorCode` and `ErrorMessage`
(and the logging fields, which carry no behaviour).  The spec describes the
deny outcome as `Deny(status, errorCode, errorMessage)`, so the model also
carries the deny status `DenyStatus`; the handler in `src/` never reads it. -/
structure InterceptorResult where
  Result : InterceptorResultType
  DenyStatus : Nat
  ErrorCode : String
  ErrorMessage : String

/-- An HTTP response, reduced to the parts the response rewrites touch. -/
structure HttpResponse where
  body : String
  headers : List (String × String)
deriving Repr, DecidableEq

/-- One queued `hook.HttpResponseModifierFunc`.  The `tag` is an identity
used only to observe which rewrites were executed and in which order. -/
structure QueuedRewrite where
  tag : Nat
  fn : HttpResponse → HttpResponse

/-- Modelled from the spec: the outcome of one `runHook` call of the
handler loop (the `runHook` helper and the `hookrunner` package are not
under `src/`).  Per the spec, a before-phase hook whose outcome is
`Abort`/`RespondNow` writes a response and stops the handler (`runHook`
returns `false`), while otherwise the phase only appends HTTP response
modifier functions to the queue and the handler continues. -/
inductive PhaseResult where
  | aborted (written : HttpResponse) : PhaseResult
  | continued (rewrites : List QueuedRewrite) : PhaseResult

/-- The `for _, eventType := range hooksToRun { if !runHook(...) { return } }`
loop of `login.go`: either some phase aborts with a response already
written, or all phases pass and the accumulated rewrite queue results. -/
def runPhases : List PhaseResult → List QueuedRewrite →
    (List QueuedRewrite) ⊕ HttpResponse
  | [], acc => .inl acc
  | .aborted resp :: _, _ => .inr resp
  | .continued fs :: rest, acc => runPhases rest (acc ++ fs)

/-- Modelled from the spec: `hook.CreateChainedHttpResponseModifierFunc`
(not under `src/`) composes the queued rewrites so that they apply to the
response in the order they were queued. -/
def CreateChainedHttpResponseModifierFunc (fs : List QueuedRewrite) :
    HttpResponse → HttpResponse :=
  fun resp => fs.foldl (fun r f => f.fn r) resp

/-- Applying the queued rewrites while recording the tags of the rewrites
actually executed, in execution order. -/
def applyRewritesTraced (fs : List QueuedRewrite) (resp : HttpResponse) :
    HttpResponse × List Nat :=
  fs.foldl (fun acc f => (f.fn acc.1, acc.2 ++ [f.tag])) (resp, [])

/-- The final disposition of one request, as the client (or the operating
system) observes it.  `processCrash` models `logger.Fatalf`, which logs
and then exits the whole process without writing a response. -/
inductive Disposition where
  | hookResponse (resp : HttpResponse) : Disposition
  | errorEnvelope (status : Nat) (errcode : String) (errorMessage : String) : Disposition
  | upstream (resp : HttpResponse) : Disposition
  | processCrash (message : String) : Disposition
deriving Repr, DecidableEq

/-- The body of the handler returned by `createInterceptorHandler` in
`login.go`, together with the trace of executed rewrite tags:

* the phase loop may abort with a hook-written response (`runHook`
  returning `false` makes the handler return immediately);
* `InterceptorResultDeny` ⇒ `httphelp.RespondWithMatrixError(w,
  http.StatusForbidden, ErrorCode, ErrorMessage)` — the Matrix error
  envelope, with the status hardcoded to `StatusForbidden`, modelled from
  the spec as carrying `errcode`/`error` fields;
* `InterceptorResultProxy` with an empty queue ⇒ the shared reverse proxy
  serves the request with no `ModifyResponse` attached, so the upstream
  response passes through unmodified;
* `InterceptorResultProxy` with a non-empty queue ⇒ a copy of the reverse
  proxy gets `ModifyResponse = CreateChainedHttpResponseModifierFunc(queue)`
  and the upstream response is rewritten before reaching the client;
* anything else ⇒ `logger.Fatalf(...)`, i.e. a process crash. -/
def handleAfterPhases (ir : InterceptorResult) (upstreamResponse : HttpResponse)
    (fs : List QueuedRewrite) : Disposition × List Nat :=
  if ir.Result = .Deny then
    (.errorEnvelope StatusForbidden ir.ErrorCode ir.ErrorMessage, [])
  else if ir.Result = .Proxy then
    if fs.length = 0 then
      (.upstream upstreamResponse, [])
    else
      let traced := applyRewritesTraced fs upstreamResponse
      (.upstream traced.1, traced.2)
  else
    (.processCrash "unexpected interceptor result", [])

def handleRequest (phaseResults : List PhaseResult) (ir : InterceptorResult)
    (upstreamResponse : HttpResponse) : Disposition × List Nat :=
  match runPhases phaseResults [] with
  | .inr written => (.hookResponse written, [])
  | .inl fs => handleAfterPhases ir upstreamResponse fs

lemma handleRequest_inl (pr : List PhaseResult) (ir : InterceptorResult)
    (up : HttpResponse) (fs : List QueuedRewrite)
    (hph : runPhases pr [] = Sum.inl fs) :
    handleRequest pr ir up = handleAfterPhases ir up fs := by
  unfold handleRequest
  rw [hph]

/-- The ordered list of event types the login handler runs hooks for
(`hooksToRun` in `createInterceptorHandler`, `login.go` lines 44-49). -/
def hooksToRun : List String :=
  [EventTypeBeforeAnyRequest,
   EventTypeBeforeUnauthenticatedRequest,
   EventTypeAfterAnyRequest,
   EventTypeAfterUnauthenticatedRequest]

/-! ### Helper notions and lemmas -/

/-- Whether `sub` occurs as a contiguous sublist of `l`. -/
def listContainsSublist (l sub : List Char) : Bool :=
  (List.range (l.length + 1)).any (fun i => sub.isPrefixOf (l.drop i))

/-- Whether the string `sub` occurs inside the string `s`. -/
def strContainsSubstr (s sub : String) : Bool :=
  listContainsSublist s.data sub.data

lemma isPrefixOf_append_self (l t : List Char) : l.isPrefixOf (l ++ t) = true := by
  induction l with
  | nil => simp [List.isPrefixOf]
  | cons c l ih => simp [List.isPrefixOf, ih]

lemma listContainsSublist_append_middle (x sub y : List Char) :
    listContainsSublist (x ++ sub ++ y) sub = true := by
  unfold listContainsSublist
  rw [List.any_eq_true]
  refine ⟨x.length, ?_, ?_⟩
  · rw [List.mem_range]
    simp only [List.length_append]
    omega
  · rw [List.append_assoc, List.drop_left]
    exact isPrefixOf_append_self sub y

lemma string_data_append (s t : String) : (s ++ t).data = s.data ++ t.data := by
  cases s
  cases t
  rfl

lemma strContainsSubstr_of_decomp (e sub : String) (x y : List Char)
    (hdecomp : e.data = x ++ sub.data ++ y) : strContainsSubstr e sub = true := by
  unfold strContainsSubstr
  rw [hdecomp]
  exact listContainsSublist_append_middle x sub.data y

/-- Whether an optional regex pattern is absent or compiles. -/
def regexCompileOptOk : Option String → Bool
  | none => true
  | some p =>
    match regexpCompile p with
    | .ok _ => true
    | .error _ => false

lemma methodStep_isOk_iff (h : Hook) :
    (∃ h2, h.ensureInitializedMethodStep = Except.ok h2) ↔
      regexCompileOptOk h.MethodMatchesRegex = true := by
  unfold Hook.ensureInitializedMethodStep
  cases hm : h.MethodMatchesRegex with
  | none => simp [regexCompileOptOk]
  | some p =>
    cases hc : regexpCompile p with
    | error e => simp [regexCompileOptOk, hc]
    | ok re => simp [regexCompileOptOk, hc]

lemma ensureInitialized_isOk_iff (h : Hook) :
    (∃ h2, h.ensureInitialized = Except.ok h2) ↔
      (regexCompileOptOk h.RouteMatchesRegex = true ∧
       regexCompileOptOk h.MethodMatchesRegex = true) := by
  unfold Hook.ensureInitialized
  cases hr : h.RouteMatchesRegex with
  | none =>
    rw [show regexCompileOptOk none = true from rfl]
    simp only [true_and]
    exact methodStep_isOk_iff h
  | some p =>
    cases hc : regexpCompile p with
    | error e => simp [regexCompileOptOk, hc]
    | ok re =>
      have hstep := methodStep_isOk_iff
        { h with RouteMatchesRegex := some p, RouteMatchesRegexCompiled := some re }
      simpa [regexCompileOptOk, hc] using hstep

lemma methodStep_ok_fields (h h2 : Hook)
    (hok : h.ensureInitializedMethodStep = Except.ok h2) :
    h2.RouteMatchesRegexCompiled = h.RouteMatchesRegexCompiled ∧
    h2.MethodMatchesRegexCompiled =
      (match h.MethodMatchesRegex with
       | none => h.MethodMatchesRegexCompiled
       | some p => (regexpCompile p).toOption) := by
  unfold Hook.ensureInitializedMethodStep at hok
  cases hm : h.MethodMatchesRegex with
  | none =>
    simp only [hm] at hok
    simp only [Except.ok.injEq] at hok
    subst hok
    simp
  | some q =>
    simp only [hm] at hok
    cases hc : regexpCompile q with
    | error e => simp [hc] at hok
    | ok re =>
      simp only [hc, Except.ok.injEq] at hok
      subst hok
      simp [hc, Except.toOption]

lemma ensureInitialized_ok_fields (h h2 : Hook)
    (hok : h.ensureInitialized = Except.ok h2) :
    h2.RouteMatchesRegexCompiled =
      (match h.RouteMatchesRegex with
       | none => h.RouteMatchesRegexCompiled
       | some p => (regexpCompile p).toOption) ∧
    h2.MethodMatchesRegexCompiled =
      (match h.MethodMatchesRegex with
       | none => h.MethodMatchesRegexCompiled
       | some p => (regexpCompile p).toOption) := by
  unfold Hook.ensureInitialized at hok
  cases hr : h.RouteMatchesRegex with
  | none =>
    simp only [hr] at hok
    have hf := methodStep_ok_fields h h2 hok
    simp [hf.1, hf.2]
  | some p =>
    simp only [hr] at hok
    cases hc : regexpCompile p with
    | error e => simp [hc] at hok
    | ok re =>
      simp only [hc] at hok
      have hf := methodStep_ok_fields _ h2 hok
      refine ⟨?_, ?_⟩
      · rw [hf.1]
        simp [hc, Except.toOption]
      · exact hf.2

lemma contains_iff_mem (s : String) (l : List String) :
    l.contains s = true ↔ s ∈ l :=
  ⟨fun hc => List.mem_of_elem_eq_true hc, fun hm => List.elem_eq_true_of_mem hm⟩

lemma validate_eq_none_iff (h : Hook) :
    h.Validate = none ↔
      (h.ID ≠ "" ∧ h.EventType ∈ knownEventTypes ∧ h.Action ∈ knownActions ∧
       regexCompileOptOk h.RouteMatchesRegex = true ∧
       regexCompileOptOk h.MethodMatchesRegex = true) := by
  unfold Hook.Validate IsStringInArray
  by_cases hid : h.ID = ""
  · simp [hid]
  · by_cases hev : h.EventType ∈ knownEventTypes
    · by_cases hac : h.Action ∈ knownActions
      · have hev' : knownEventTypes.contains h.EventType = true :=
          (contains_iff_mem _ _).mpr hev
        have hac' : knownActions.contains h.Action = true :=
          (contains_iff_mem _ _).mpr hac
        rw [hev', hac']
        cases hEI : h.ensureInitialized with
        | error e =>
          constructor
          · intro hcontra
            simp [hid] at hcontra
          · rintro ⟨-, -, -, hro, hmo⟩
            rcases (ensureInitialized_isOk_iff h).mpr ⟨hro, hmo⟩ with ⟨h2, hok⟩
            rw [hEI] at hok
            cases hok
        | ok h2 =>
          have hcond := (ensureInitialized_isOk_iff h).mp ⟨h2, hEI⟩
          simp [hid, hev, hac, hcond.1, hcond.2]
      · have hac' : knownActions.contains h.Action = false := by
          cases hcb : knownActions.contains h.Action
          · rfl
          · exact absurd ((contains_iff_mem _ _).mp hcb) hac
        have hev' : knownEventTypes.contains h.EventType = true :=
          (contains_iff_mem _ _).mpr hev
        rw [hev', hac']
        simp [hid, hac]
    · have hev' : knownEventTypes.contains h.EventType = false := by
        cases hcb : knownEventTypes.contains h.EventType
        · rfl
        · exact absurd ((contains_iff_mem _ _).mp hcb) hev
      rw [hev']
      simp [hid, hev]

lemma validate_some_contains_id (h : Hook) (e : String) (he : h.Validate = some e) :
    strContainsSubstr e h.ID = true := by
  unfold Hook.Validate at he
  by_cases hid : h.ID = ""
  · rw [if_pos hid] at he
    simp only [Option.some.injEq] at he
    subst he
    rw [hid]
    exact strContainsSubstr_of_decomp _ "" ("Hook has no id".data) [] (by simp)
  · rw [if_neg hid] at he
    cases hev : IsStringInArray h.EventType knownEventTypes with
    | false =>
      rw [hev] at he
      simp only [Bool.not_false, if_true, Option.some.injEq] at he
      subst he
      exact strContainsSubstr_of_decomp _ _
        (h.EventType.data ++ " is an invalid event type for hook #".data) []
        (by simp [string_data_append, List.append_assoc])
    | true =>
      rw [hev] at he
      simp only [Bool.not_true, Bool.false_eq_true, if_false] at he
      cases hac : IsStringInArray h.Action knownActions with
      | false =>
        rw [hac] at he
        simp only [Bool.not_false, if_true, Option.some.injEq] at he
        subst he
        exact strContainsSubstr_of_decomp _ _
          (h.Action.data ++ " is an invalid action for hook #".data) []
          (by simp [string_data_append, List.append_assoc])
      | true =>
        rw [hac] at he
        simp only [Bool.not_true, Bool.false_eq_true, if_false] at he
        cases hEI : h.ensureInitialized with
        | error err =>
          rw [hEI] at he
          simp only [Option.some.injEq] at he
          subst he
          exact strContainsSubstr_of_decomp _ _
            ("Error when initializing hook #".data) (": ".data ++ err.data)
            (by simp [string_data_append, List.append_assoc])
        | ok h2 =>
          rw [hEI] at he
          simp at he

lemma foldl_rewrites (fs : List QueuedRewrite) (r : HttpResponse) (log : List Nat) :
    fs.foldl (fun acc f => (f.fn acc.1, acc.2 ++ [f.tag])) (r, log) =
      (fs.foldl (fun x f => f.fn x) r, log ++ fs.map (fun f => f.tag)) := by
  induction fs generalizing r log with
  | nil => simp
  | cons f fs ih => simp [List.foldl, ih]

lemma applyRewritesTraced_eq (fs : List QueuedRewrite) (r : HttpResponse) :
    applyRewritesTraced fs r =
      (CreateChainedHttpResponseModifierFunc fs r, fs.map (fun f => f.tag)) := by
  unfold applyRewritesTraced CreateChainedHttpResponseModifierFunc
  simpa using foldl_rewrites fs r []

lemma regexCompileOptOk_some (p : String) (hok : regexCompileOptOk (some p) = true) :
    ∃ re, regexpCompile p = Except.ok re := by
  unfold regexCompileOptOk at hok
  cases hc : regexpCompile p with
  | error e => simp [hc] at hok
  | ok re => exact ⟨re, rfl⟩

/-- Follows the spec's words (the reference side of the refinement claim on
`MatchesRequest`): a dimension with no configured regex is a wildcard; a
configured regex must compile and match the input. -/
def specDimensionMatches (pat : Option String) (input : String) : Bool :=
  match pat with
  | none => true
  | some p =>
    match regexpCompile p with
    | .ok re => re.matchString input
    | .error _ => false

lemma matchesRequest_eq_spec (h : Hook) (r : Request)
    (hv : h.Validate = none)
    (hrc : h.RouteMatchesRegex = none → h.RouteMatchesRegexCompiled = none)
    (hmc : h.MethodMatchesRegex = none → h.MethodMatchesRegexCompiled = none) :
    h.MatchesRequest r =
      Except.ok (specDimensionMatches h.MethodMatchesRegex r.Method &&
                 specDimensionMatches h.RouteMatchesRegex r.RequestURI) := by
  have hcond := (validate_eq_none_iff h).mp hv
  rcases (ensureInitialized_isOk_iff h).mpr ⟨hcond.2.2.2.1, hcond.2.2.2.2⟩ with ⟨h2, hok⟩
  have hf := ensureInitialized_ok_fields h h2 hok
  have hmeq : (match h2.MethodMatchesRegexCompiled with
      | some re => re.matchString r.Method
      | none => true) = specDimensionMatches h.MethodMatchesRegex r.Method := by
    cases hm : h.MethodMatchesRegex with
    | none =>
      have h2m := hf.2
      simp only [hm] at h2m
      rw [hmc hm] at h2m
      simp [specDimensionMatches, h2m]
    | some p =>
      have hpo := hcond.2.2.2.2
      rw [hm] at hpo
      rcases regexCompileOptOk_some p hpo with ⟨re, hcre⟩
      have h2m := hf.2
      simp only [hm, hcre, Except.toOption] at h2m
      simp [specDimensionMatches, hcre, h2m]
  have hreq : (match h2.RouteMatchesRegexCompiled with
      | some re => re.matchString r.RequestURI
      | none => true) = specDimensionMatches h.RouteMatchesRegex r.RequestURI := by
    cases hrt : h.RouteMatchesRegex with
    | none =>
      have h2r := hf.1
      simp only [hrt] at h2r
      rw [hrc hrt] at h2r
      simp [specDimensionMatches, h2r]
    | some p =>
      have hpo := hcond.2.2.2.1
      rw [hrt] at hpo
      rcases regexCompileOptOk_some p hpo with ⟨re, hcre⟩
      have h2r := hf.1
      simp only [hrt, hcre, Except.toOption] at h2r
      simp [specDimensionMatches, hcre, h2r]
  unfold Hook.MatchesRequest
  rw [hok]
  simp [hmeq, hreq]

lemma matchesRequest_isOk_of_validate (h : Hook) (r : Request)
    (hv : h.Validate = none) :
    ∃ b, h.MatchesRequest r = Except.ok b := by
  have hcond := (validate_eq_none_iff h).mp hv
  rcases (ensureInitialized_isOk_iff h).mpr ⟨hcond.2.2.2.1, hcond.2.2.2.2⟩ with ⟨h2, hok⟩
  unfold Hook.MatchesRequest
  rw [hok]
  exact ⟨_, rfl⟩

lemma ensureInitializedCompileCount_of_ok (h : Hook)
    (hro : regexCompileOptOk h.RouteMatchesRegex = true) :
    h.ensureInitializedCompileCount =
      (match h.RouteMatchesRegex with | none => 0 | some _ => 1) +
      (match h.MethodMatchesRegex with | none => 0 | some _ => 1) := by
  unfold Hook.ensureInitializedCompileCount
  cases hr : h.RouteMatchesRegex with
  | none => simp
  | some p =>
    rw [hr] at hro
    rcases regexCompileOptOk_some p hro with ⟨re, hcre⟩
    simp [hcre]

/-! ### Concrete hooks and interceptor results used as witnesses -/

/-- A hook as the policy loader constructs it: fresh from JSON, with both
compiled fields still nil. -/
def sampleRejectHook : Hook :=
  { ID := "sample-reject"
    EventType := EventTypeBeforeAnyRequest
    RouteMatchesRegex := some "^/login$"
    Action := ActionReject }

/-- A validated hook configuring both match dimensions. -/
def samplePostHook : Hook :=
  { ID := "sample-post"
    EventType := EventTypeBeforeAnyRequest
    RouteMatchesRegex := some "^/login$"
    MethodMatchesRegex := some "^(POST|PUT)$"
    Action := ActionPassUnmodified }

/-- A hook whose route regex does not compile (unclosed group), so it can
never pass validation. -/
def badRegexHook : Hook :=
  { ID := "bad-regex"
    EventType := EventTypeBeforeAnyRequest
    RouteMatchesRegex := some "("
    Action := ActionReject }

/-! ### Claims about the hook model -/

/-- Claim C5 (confirmed): `Validate()` returns nil exactly when the id is
non-empty, the event type is known, the action is known, and every present
regex compiles; and every error it returns contains the offending hook's
id as a substring. -/
theorem validate_iff_and_error_names_id (h : Hook) :
    (h.Validate = none ↔
      (h.ID ≠ "" ∧ h.EventType ∈ knownEventTypes ∧ h.Action ∈ knownActions ∧
       regexCompileOptOk h.RouteMatchesRegex = true ∧
       regexCompileOptOk h.MethodMatchesRegex = true)) ∧
    (∀ e, h.Validate = some e → strContainsSubstr e h.ID = true) :=
  ⟨validate_eq_none_iff h, fun e he => validate_some_contains_id h e he⟩

/-- Witness for C5: a hook with an unknown event type is rejected with a
message naming its id, and the sample hook validates. -/
theorem validate_iff_and_error_names_id_witness :
    Hook.Validate { ID := "w5", EventType := "bogus", Action := "reject" } =
      some "bogus is an invalid event type for hook #w5" ∧
    strContainsSubstr "bogus is an invalid event type for hook #w5" "w5" = true := by
  constructor
  · rfl
  · exact (validate_iff_and_error_names_id
      { ID := "w5", EventType := "bogus", Action := "reject" }).2 _ (by rfl)

/-- Claim C6 (confirmed): for every validated hook — with the compiled
fields as every hook the program constructs has them, namely never set when
the corresponding pattern string is absent — and every request,
`MatchesRequest` returns exactly the conjunction of the two dimensions: a
nil regex is a wildcard for its dimension, and both configured dimensions
must independently match. -/
theorem matchesRequest_and_semantics (h : Hook) (r : Request)
    (hv : h.Validate = none)
    (hrc : h.RouteMatchesRegex = none → h.RouteMatchesRegexCompiled = none)
    (hmc : h.MethodMatchesRegex = none → h.MethodMatchesRegexCompiled = none) :
    h.MatchesRequest r =
      Except.ok (specDimensionMatches h.MethodMatchesRegex r.Method &&
                 specDimensionMatches h.RouteMatchesRegex r.RequestURI) :=
  matchesRequest_eq_spec h r hv hrc hmc

/-- Witness for C6: the `^(POST|PUT)$` + `^/login$` hook rejects a GET to
`/login` and accepts a POST to `/login`. -/
theorem matchesRequest_and_semantics_witness :
    samplePostHook.MatchesRequest { Method := "GET", RequestURI := "/login" } =
      Except.ok false ∧
    samplePostHook.MatchesRequest { Method := "POST", RequestURI := "/login" } =
      Except.ok true := by
  constructor
  · exact (matchesRequest_and_semantics samplePostHook
      { Method := "GET", RequestURI := "/login" } (by rfl)
      (fun hx => Option.noConfusion hx) (fun hx => Option.noConfusion hx)).trans (by rfl)
  · exact (matchesRequest_and_semantics samplePostHook
      { Method := "POST", RequestURI := "/login" } (by rfl)
      (fun hx => Option.noConfusion hx) (fun hx => Option.noConfusion hx)).trans (by rfl)

/-- Claim C9 (confirmed): on every hook that passed validation,
`MatchesRequest` is total — it returns a boolean and never reaches the
panic branch — and, having a value receiver, leaves the caller's hook
value unchanged (the call returns the unmodified hook alongside the
result; as a pure Lean function it has no side effects). -/
theorem matchesRequest_total_on_validated (h : Hook) (r : Request)
    (hv : h.Validate = none) :
    ∃ b, h.MatchesRequestCall r = (Except.ok b, h) := by
  rcases matchesRequest_isOk_of_validate h r hv with ⟨b, hb⟩
  refine ⟨b, ?_⟩
  unfold Hook.MatchesRequestCall
  rw [hb]

/-- Witness for C9: the sample hook validates, and `MatchesRequest` on a
concrete request returns a boolean with the hook unchanged. -/
theorem matchesRequest_total_on_validated_witness :
    ∃ b, sampleRejectHook.MatchesRequestCall
      { Method := "POST", RequestURI := "/login" } = (Except.ok b, sampleRejectHook) :=
  matchesRequest_total_on_validated sampleRejectHook
    { Method := "POST", RequestURI := "/login" } (by rfl)

/-- Claim C10 (confirmed): there is a hook — one whose route regex is
present but does not compile, so it can never pass validation — on which
`MatchesRequest` panics (reaches the `panic(err)` branch, modelled as
`Except.error`) for every request. -/
theorem matchesRequest_panics_on_invalid_regex :
    ∃ (h : Hook) (p : String),
      h.RouteMatchesRegex = some p ∧
      (∃ e, regexpCompile p = Except.error e) ∧
      ∀ r : Request, ∃ e, h.MatchesRequest r = Except.error e := by
  refine ⟨badRegexHook, "(", rfl, ⟨"missing closing )", rfl⟩, ?_⟩
  intro r
  exact ⟨"missing closing )", rfl⟩

/-- Counterexample to claim C3 as stated: `sampleRejectHook` has a present
route regex and `Validate()` returns nil on it — but, the receiver being a
value, the caller's hook still has a nil `RouteMatchesRegexCompiled`
afterwards, and a `MatchesRequest` call performs one regex compilation
rather than none. -/
theorem validate_does_not_attach_compiled_matcher :
    sampleRejectHook.ValidateCall = (none, sampleRejectHook) ∧
    sampleRejectHook.RouteMatchesRegexCompiled = none ∧
    sampleRejectHook.MatchesRequestCompileCount
      { Method := "POST", RequestURI := "/login" } = 1 :=
  ⟨rfl, rfl, rfl⟩

/-- Claim C3 as amended (the value receiver forces the correction):
`Validate()` compiles the regexes only into a local copy that is
discarded, so the caller's hook is returned unchanged — its `*Compiled`
fields are exactly what they were before — and every `MatchesRequest`
call re-runs `ensureInitialized`, compiling each present regex again. -/
theorem validate_compiles_on_discarded_copy (h : Hook) (r : Request)
    (hv : h.Validate = none) :
    h.ValidateCall.2 = h ∧
    h.MatchesRequestCompileCount r =
      (match h.RouteMatchesRegex with | none => 0 | some _ => 1) +
      (match h.MethodMatchesRegex with | none => 0 | some _ => 1) := by
  refine ⟨rfl, ?_⟩
  have hcond := (validate_eq_none_iff h).mp hv
  exact ensureInitializedCompileCount_of_ok h hcond.2.2.2.1

/-- Witness for the amended C3: the sample hook (route regex present,
method regex absent) validates, stays unchanged, and costs one compilation
per `MatchesRequest` call. -/
theorem validate_compiles_on_discarded_copy_witness :
    sampleRejectHook.ValidateCall.2 = sampleRejectHook ∧
    sampleRejectHook.MatchesRequestCompileCount
      { Method := "POST", RequestURI := "/login" } = 1 := by
  have h := validate_compiles_on_discarded_copy sampleRejectHook
    { Method := "POST", RequestURI := "/login" } (by rfl)
  exact ⟨h.1, h.2.trans (by rfl)⟩

/-- Claim C4 (a bug in the code as given): `login.go` runs hooks for four
phases, but `knownEventTypes` in `hook.go` lists only the two `before*`
constants that file defines — the three other constants `login.go`
references do not exist under `src/` at all — so `Validate()` rejects a
hook declared for the `afterAnyRequest` phase the login pipeline runs,
while the claim (and the spec's phase enumeration) says it is accepted. -/
theorem login_phases_not_all_known :
    hooksToRun.all (fun et => knownEventTypes.contains et) = false ∧
    Hook.Validate
      { ID := "after-hook", EventType := EventTypeAfterAnyRequest,
        Action := ActionReject } =
      some "afterAnyRequest is an invalid event type for hook #after-hook" :=
  ⟨rfl, rfl⟩

/-! ### Claims about the interceptor pipeline -/

/-- An interceptor result that is neither Deny nor Proxy. -/
def crashIR : InterceptorResult :=
  { Result := .Other 0, DenyStatus := 500, ErrorCode := "", ErrorMessage := "" }

/-- A Deny interceptor result whose (spec-modelled) deny status, 200, is
not the 403 the handler hardcodes. -/
def denyIR : InterceptorResult :=
  { Result := .Deny, DenyStatus := 200, ErrorCode := "M_FORBIDDEN",
    ErrorMessage := "denied by policy" }

/-- A Proxy interceptor result. -/
def proxyIR : InterceptorResult :=
  { Result := .Proxy, DenyStatus := 0, ErrorCode := "", ErrorMessage := "" }

/-- A queued response rewrite appending `A` to the body, tagged 1. -/
def rewriteAppendA : QueuedRewrite :=
  { tag := 1, fn := fun resp => { resp with body := resp.body ++ "A" } }

/-- A queued response rewrite appending `B` to the body, tagged 2. -/
def rewriteAppendB : QueuedRewrite :=
  { tag := 2, fn := fun resp => { resp with body := resp.body ++ "B" } }

/-- A fixed upstream response. -/
def upstreamBase : HttpResponse := { body := "base", headers := [] }

/-- Counterexample to claim C1 as stated: on an interceptor result that is
neither Deny nor Proxy the handler does not terminate the request with a
generic internal-error response — it runs `logger.Fatalf`, which
terminates the whole process without writing any response. -/
theorem unexpected_interceptor_result_crash_example :
    (handleRequest [] crashIR upstreamBase).1 =
      Disposition.processCrash "unexpected interceptor result" := rfl

/-- Claim C1 as amended: whenever the phase loop completes and the
interceptor result is neither Deny nor Proxy, the handler's disposition is
a process crash (`logger.Fatalf`: the log line followed by process exit),
not an error response. -/
theorem unexpected_interceptor_result_crashes (pr : List PhaseResult)
    (ir : InterceptorResult) (up : HttpResponse) (fs : List QueuedRewrite)
    (hph : runPhases pr [] = Sum.inl fs)
    (hnd : ir.Result ≠ InterceptorResultType.Deny)
    (hnp : ir.Result ≠ InterceptorResultType.Proxy) :
    (handleRequest pr ir up).1 =
      Disposition.processCrash "unexpected interceptor result" := by
  rw [handleRequest_inl pr ir up fs hph]
  unfold handleAfterPhases
  rw [if_neg hnd, if_neg hnp]

/-- Witness for the amended C1 at a concrete input. -/
theorem unexpected_interceptor_result_crashes_witness :
    (handleRequest [PhaseResult.continued []] crashIR upstreamBase).1 =
      Disposition.processCrash "unexpected interceptor result" :=
  unexpected_interceptor_result_crashes [PhaseResult.continued []] crashIR
    upstreamBase [] rfl (by decide) (by decide)

/-- Counterexample to claim C2 as stated: the interceptor denies with a
(spec-modelled) deny status of 200, yet the envelope the handler writes
carries status 403 — `http.StatusForbidden` is hardcoded at the
`RespondWithMatrixError` call site, the deny status is never read. -/
theorem deny_status_not_taken_from_interceptor :
    (handleRequest [] denyIR upstreamBase).1 =
      Disposition.errorEnvelope 403 "M_FORBIDDEN" "denied by policy" ∧
    denyIR.DenyStatus = 200 ∧ (403 : Nat) ≠ 200 :=
  ⟨rfl, rfl, by decide⟩

/-- Claim C2 as amended: on Deny the handler writes the Matrix error
envelope carrying the deny result's error code and error message, with the
HTTP status always `http.StatusForbidden` (403), regardless of any status
carried by the interceptor's result; no rewrite runs. -/
theorem deny_writes_envelope_with_forbidden (pr : List PhaseResult)
    (ir : InterceptorResult) (up : HttpResponse) (fs : List QueuedRewrite)
    (hph : runPhases pr [] = Sum.inl fs)
    (hd : ir.Result = InterceptorResultType.Deny) :
    handleRequest pr ir up =
      (Disposition.errorEnvelope StatusForbidden ir.ErrorCode ir.ErrorMessage,
       []) := by
  rw [handleRequest_inl pr ir up fs hph]
  unfold handleAfterPhases
  rw [if_pos hd]

/-- Witness for the amended C2 at a concrete input. -/
theorem deny_writes_envelope_with_forbidden_witness :
    handleRequest [] denyIR upstreamBase =
      (Disposition.errorEnvelope StatusForbidden "M_FORBIDDEN"
        "denied by policy", []) :=
  (deny_writes_envelope_with_forbidden [] denyIR upstreamBase [] rfl rfl).trans
    (by rfl)

/-- Claim C7 (confirmed): whenever the request ends in an interceptor Deny,
or a before-phase hook aborts with its own response, no queued response
rewrite is executed — the executed-rewrite trace is empty and the
disposition is never a (possibly rewritten) upstream response. -/
theorem deny_or_abort_discards_rewrites (pr : List PhaseResult)
    (ir : InterceptorResult) (up : HttpResponse)
    (hcond : ir.Result = InterceptorResultType.Deny ∨
      ∃ resp, runPhases pr [] = Sum.inr resp) :
    (handleRequest pr ir up).2 = [] ∧
    ∀ resp, (handleRequest pr ir up).1 ≠ Disposition.upstream resp := by
  cases hrp : runPhases pr [] with
  | inr written =>
    unfold handleRequest
    rw [hrp]
    exact ⟨rfl, fun resp hx => Disposition.noConfusion hx⟩
  | inl fs =>
    rcases hcond with hd | ⟨resp0, habort⟩
    · rw [handleRequest_inl pr ir up fs hrp]
      unfold handleAfterPhases
      rw [if_pos hd]
      exact ⟨rfl, fun resp hx => Disposition.noConfusion hx⟩
    · rw [hrp] at habort
      cases habort

/-- Witness for C7: two rewrites are queued, the interceptor denies, and
the trace of executed rewrites is empty. -/
theorem deny_or_abort_discards_rewrites_witness :
    (handleRequest [PhaseResult.continued [rewriteAppendA, rewriteAppendB]]
      denyIR upstreamBase).2 = [] ∧
    (handleRequest [PhaseResult.continued [rewriteAppendA, rewriteAppendB]]
      denyIR upstreamBase).1 ≠ Disposition.upstream upstreamBase := by
  have h := deny_or_abort_discards_rewrites
    [PhaseResult.continued [rewriteAppendA, rewriteAppendB]]
    denyIR upstreamBase (Or.inl rfl)
  exact ⟨h.1, h.2 upstreamBase⟩

/-- Claim C8 (confirmed): on Proxy with an empty rewrite queue the handler
returns the upstream response unmodified (no modifier function attached);
with a non-empty queue it returns the upstream response transformed by the
chained modifier, and the executed-rewrite trace is exactly the queued
tags in queue order. -/
theorem proxy_applies_rewrites_in_order (pr : List PhaseResult)
    (ir : InterceptorResult) (up : HttpResponse) (fs : List QueuedRewrite)
    (hph : runPhases pr [] = Sum.inl fs)
    (hp : ir.Result = InterceptorResultType.Proxy) :
    (fs = [] → handleRequest pr ir up = (Disposition.upstream up, [])) ∧
    (handleRequest pr ir up).1 =
      Disposition.upstream (CreateChainedHttpResponseModifierFunc fs up) ∧
    (handleRequest pr ir up).2 = fs.map (fun f => f.tag) := by
  have hnd : ir.Result ≠ InterceptorResultType.Deny := by
    rw [hp]
    intro hx
    cases hx
  rw [handleRequest_inl pr ir up fs hph]
  unfold handleAfterPhases
  rw [if_neg hnd, if_pos hp]
  cases fs with
  | nil => exact ⟨fun _ => rfl, rfl, rfl⟩
  | cons f rest =>
    refine ⟨fun hx => List.noConfusion hx, ?_, ?_⟩
    · rw [if_neg (by simp)]
      simp [applyRewritesTraced_eq]
    · rw [if_neg (by simp)]
      simp [applyRewritesTraced_eq]

/-- Witness for C8: two order-sensitive rewrites queued across two phases
are applied to the upstream body in queue order (`base` then `A` then `B`)
and traced as `[1, 2]`. -/
theorem proxy_applies_rewrites_in_order_witness :
    handleRequest
      [PhaseResult.continued [rewriteAppendA], PhaseResult.continued [rewriteAppendB]]
      proxyIR upstreamBase =
      (Disposition.upstream { body := "baseAB", headers := [] }, [1, 2]) := by
  have h := proxy_applies_rewrites_in_order
    [PhaseResult.continued [rewriteAppendA], PhaseResult.continued [rewriteAppendB]]
    proxyIR upstreamBase [rewriteAppendA, rewriteAppendB] rfl rfl
  have h1 := h.2.1
  have h2 := h.2.2
  rw [show Disposition.upstream (CreateChainedHttpResponseModifierFunc
        [rewriteAppendA, rewriteAppendB] upstreamBase) =
      Disposition.upstream { body := "baseAB", headers := [] } from rfl] at h1
  rw [show ([rewriteAppendA, rewriteAppendB].map (fun f => f.tag)) = ([1, 2] : List Nat)
      from rfl] at h2
  rw [← h1, ← h2]
